import Mathlib

/-!
Verification of the shopify size-chart extractor's normalization core.

The Go source is shallowly embedded: Go strings are modelled as Lean
`String`s (sequences of runes; the inputs in play are ASCII, so the
ASCII-only `Char.toLower`/`Char.toUpper` faithfully model Go's
`strings.ToLower`/`ToUpper`, and `goTrim` models `strings.TrimSpace`),
Go slices as `List`s, and Go `map[string]string` values as association
lists with distinct keys, written `List (String × String)`.  Iteration over
a Go map is in unspecified order, so every function that ranges over a map
takes the iteration order as an explicit parameter, quantified over all
permutations of the map's entries in the theorems.
-/

/-- Models Go `strings.Contains s pat` (rune-level substring test). -/
def strContains (s pat : String) : Bool :=
  decide (pat.data <:+: s.data)

/-- Rune-level test that `pat` is a prefix of `s`; models `strings.HasPrefix`. -/
def charsPrefix : List Char → List Char → Bool
  | [], _ => true
  | _ :: _, [] => false
  | p :: ps, c :: cs => p == c && charsPrefix ps cs

/-- Models Go `strings.HasPrefix s pat`. -/
def goHasPrefix (s pat : String) : Bool :=
  charsPrefix pat.data s.data

/-- Models Go `strings.HasSuffix s pat`. -/
def goHasSuffix (s pat : String) : Bool :=
  charsPrefix pat.data.reverse s.data.reverse

/-- Models Go `strings.TrimSpace` (rune-level; the whitespace runes of the
inputs in play are covered by `Char.isWhitespace`). -/
def goTrim (s : String) : String :=
  String.mk (((s.data.dropWhile Char.isWhitespace).reverse.dropWhile
    Char.isWhitespace).reverse)

/-- Models Go `strings.ToLower` (ASCII inputs). -/
def strToLower (s : String) : String :=
  String.mk (s.data.map Char.toLower)

/-- Models Go `strings.ToUpper` (ASCII inputs). -/
def strToUpper (s : String) : String :=
  String.mk (s.data.map Char.toUpper)

/-- Models Go `strings.Join parts " "` at the rune level. -/
def joinSpaceChars : List (List Char) → List Char
  | [] => []
  | [s] => s
  | s :: rest => s ++ ' ' :: joinSpaceChars rest

/-- Models Go `strings.Join parts " "`. -/
def goJoinSpace : List String → String
  | [] => ""
  | [s] => s
  | s :: rest => s ++ " " ++ goJoinSpace rest

/-- Whitespace-run splitter behind `goFields`; `cur` is the reversed
current field. -/
def fieldsAux : List Char → List Char → List (List Char)
  | [], cur => if cur.isEmpty then [] else [cur.reverse]
  | c :: cs, cur =>
    if Char.isWhitespace c then
      if cur.isEmpty then fieldsAux cs [] else cur.reverse :: fieldsAux cs []
    else fieldsAux cs (c :: cur)

/-- Models Go `strings.Fields`: split on whitespace runs, dropping empties. -/
def goFields (s : String) : List String :=
  (fieldsAux s.data []).map String.mk

/-- Models Go `strings.TrimSuffix`. -/
def goTrimOneSuffix (s suf : String) : String :=
  if goHasSuffix s suf then String.mk (s.data.take (s.data.length - suf.data.length))
  else s

/-- Lookup in an association list modelling a Go `map[string]string`. -/
def assocLookup (l : List (String × String)) (k : String) : Option String :=
  (l.find? (fun e => e.1 == k)).map Prod.snd

/-- Go map indexing `m[k]` with the zero-value default `""`. -/
def assocGetD (l : List (String × String)) (k : String) : String :=
  (assocLookup l k).getD ""

/-- Go map assignment `m[k] = v`: update in place or append a new key. -/
def assocSet : List (String × String) → String → String → List (String × String)
  | [], k, v => [(k, v)]
  | (k', v') :: rest, k, v =>
    if k' = k then (k, v) :: rest else (k', v') :: assocSet rest k v

/-- `types.SizeChart` from `internal/types/types.go`: ordered headers plus
rows, each row a `map[string]string` modelled as an association list. -/
structure SizeChart where
  headers : List String
  rows : List (List (String × String))
deriving DecidableEq

/-! ## `adapters/base.go`: FilterSizeChart -/

/-- The canonical output headers of `FilterSizeChart` (base.go line 155). -/
def outputHeaders : List String :=
  ["Size", "Bust (in)", "Waist (in)", "Hip (in)"]

/-- The entries of the `headerMap` literal of `FilterSizeChart`
(base.go lines 160-166).  The Go value is a map; an iteration order over
it is any permutation of this list. -/
def headerMapList : List (String × String) :=
  [("size", "Size"), ("bust", "Bust (in)"), ("waist", "Waist (in)"),
   ("hip", "Hip (in)"), ("hips", "Hip (in)")]

/-- The `inputToOutput` map built by `FilterSizeChart` (base.go lines
170-179): for each input header, the first `headerMap` entry (in iteration
order `kmOrd`) whose key occurs in the lower-cased header. -/
def inputToOutputOf (kmOrd : List (String × String)) (headers : List String) :
    List (String × String) :=
  headers.foldl (fun acc h =>
    match kmOrd.find? (fun kc => strContains (strToLower h) kc.1) with
    | some kc => assocSet acc h kc.2
    | none => acc) []

/-- One output row of `FilterSizeChart` (base.go lines 194-213): for each
canonical output header, the value of the first `inputToOutput` entry (in
iteration order) mapping to it whose input header is present in the row,
else `""`. -/
def buildFilteredRow (io : List (String × String)) (row : List (String × String)) :
    List (String × String) :=
  outputHeaders.map (fun outH =>
    match io.find? (fun e => e.2 == outH && (assocLookup row e.1).isSome) with
    | some e => (outH, assocGetD row e.1)
    | none => (outH, ""))

/-- The row-retention test of `FilterSizeChart` (base.go line 217). -/
def rowKept (r : List (String × String)) : Bool :=
  !(assocGetD r "Bust (in)" == "") || !(assocGetD r "Waist (in)" == "") ||
    !(assocGetD r "Hip (in)" == "")

/-- `FilterSizeChart` (base.go lines 148-226).  `kmOrd` is the iteration
order of the `headerMap` literal and `ioOrd` gives the iteration order of
the `inputToOutput` map; Go ranges over maps in unspecified order, so both
are parameters. -/
def filterSizeChartWith (kmOrd : List (String × String))
    (ioOrd : List (String × String) → List (String × String))
    (c : Option SizeChart) : Option SizeChart :=
  match c with
  | none => none
  | some ch =>
    let io := inputToOutputOf kmOrd ch.headers
    if io.isEmpty then none
    else some ⟨outputHeaders,
      (ch.rows.map (fun row => buildFilteredRow (ioOrd io) row)).filter rowKept⟩

/-! ## `adapters/base.go`: IsValidSizeChart -/

/-- The `sizeKeywords` literal of `IsValidSizeChart` (base.go line 236). -/
def sizeKeywords : List String :=
  ["size", "bust", "waist", "hip", "chest", "length", "width"]

/-- `IsValidSizeChart` (base.go lines 230-259): nil or structurally empty
charts are invalid; otherwise the lower-cased space-join of the headers is
searched for a size keyword, and failing that every cell value, upper-cased,
is searched for one of the letters S, M, L, X. -/
def isValidSizeChart (c : Option SizeChart) : Bool :=
  match c with
  | none => false
  | some ch =>
    if ch.headers.isEmpty || ch.rows.isEmpty then false
    else
      let headerText := (joinSpaceChars (ch.headers.map String.data)).map Char.toLower
      if sizeKeywords.any (fun kw => decide (kw.data <:+: headerText)) then true
      else ch.rows.any (fun row => row.any (fun p =>
        let vu := p.2.data.map Char.toUpper
        decide (['S'] <:+: vu) || decide (['M'] <:+: vu) ||
          decide (['L'] <:+: vu) || decide (['X'] <:+: vu)))

/-! ## `adapters/base.go`: RemoveDuplicateURLs -/

/-- The loop of `RemoveDuplicateURLs` (base.go lines 267-272): `seen` is the
key set of the Go `seen` map, `unique` the output slice. -/
def removeDupAux : List String → List String → List String → List String
  | [], _, unique => unique
  | u :: rest, seen, unique =>
    if u ∈ seen then removeDupAux rest seen unique
    else removeDupAux rest (u :: seen) (unique ++ [u])

/-- `RemoveDuplicateURLs` (base.go lines 263-275). -/
def removeDuplicateURLs (urls : List String) : List String :=
  removeDupAux urls [] []

/-! ## `unnamed/part_000` (WestsideAdapter): cleanHeader and the dual-unit
size-chart extraction -/

/-- `cleanHeader` (part_000 lines 331-353): trim, lower-case, then test the
measurement keywords in the source's order — shoulder, chest, waist, hip,
bust; anything else maps to `""` and is skipped. -/
def cleanHeader (header : String) : String :=
  let h := strToLower (goTrim header)
  if strContains h "shoulder" || strContains h "to fit shoulder" then "Shoulder"
  else if strContains h "chest" || strContains h "to fit chest" then "Chest"
  else if strContains h "waist" || strContains h "to fit waist" then "Waist"
  else if strContains h "hip" || strContains h "to fit hip" then "Hip"
  else if strContains h "bust" || strContains h "to fit bust" then "Bust"
  else ""

/-- The keyword/priority table realized by `cleanHeader`, in the textual
order of its `if` chain. -/
def westsideKeywordList : List (String × String) :=
  [("shoulder", "Shoulder"), ("chest", "Chest"), ("waist", "Waist"),
   ("hip", "Hip"), ("bust", "Bust")]

/-- Header canonicalizer as the specification words it (spec section 4.4):
first matching keyword in the fixed priority order Shoulder, Chest, Bust,
Waist, Hip, Size.  Stated only to be compared against `cleanHeader`. -/
def cleanHeaderSpecModel (header : String) : String :=
  let h := strToLower (goTrim header)
  if strContains h "shoulder" then "Shoulder"
  else if strContains h "chest" then "Chest"
  else if strContains h "bust" then "Bust"
  else if strContains h "waist" then "Waist"
  else if strContains h "hip" then "Hip"
  else if strContains h "size" then "Size"
  else ""

/-- `cleanSizeText` (part_000 lines 355-364). -/
def cleanSizeText (s : String) : String :=
  let parts := goFields s
  if 2 ≤ parts.length then goJoinSpace (parts.take 2) else s

/-- One `td`/`th` cell of the Westside size-chart table: the texts of its
first `span.default` and first `span.alt` children, and its own text. -/
structure WCell where
  spanDefault : String
  spanAlt : String
  text : String
deriving DecidableEq

/-- The Westside size-chart table as handed over by the document-query
facade: raw header cell texts and the cell lists of the data rows. -/
structure WTable where
  headers : List String
  rows : List (List WCell)
deriving DecidableEq

/-- The cell walk of one row in `extractDualUnitSizeChart` (part_000 lines
285-321): `idx` is `colIndex`; once it reaches the header count every
remaining cell is skipped.  A size column sets `Size` (falling back from
the `span.default` text to the cell text); a recognized measurement column
sets both the `(cm)` and `(in)` keys, even to empty values. -/
def wRowAux (headers : List String) : List WCell → Nat → List (String × String) →
    List (String × String)
  | [], _, acc => acc
  | c :: cs, idx, acc =>
    if hidx : idx < headers.length then
      let header := headers.get ⟨idx, hidx⟩
      if strContains (strToLower header) "size" then
        let sizeText := if goTrim c.spanDefault == "" then goTrim c.text else goTrim c.spanDefault
        wRowAux headers cs (idx + 1) (assocSet acc "Size" (cleanSizeText sizeText))
      else
        let ch := cleanHeader header
        if ch == "" then wRowAux headers cs (idx + 1) acc
        else wRowAux headers cs (idx + 1)
          (assocSet (assocSet acc (ch ++ " (cm)") (goTrim c.spanDefault))
            (ch ++ " (in)") (goTrim c.spanAlt))
    else acc

/-- `extractDualUnitSizeChart` (part_000 lines 244-328): trim and drop empty
raw headers, build the combined cm/in header list, extract the rows, keep
every row that set at least one key, and fail on empty headers or rows. -/
def extractDualUnitSizeChart (t : WTable) : Option SizeChart :=
  let headers := (t.headers.map goTrim).filter (fun h => h ≠ "")
  if headers.isEmpty then none
  else
    let outHeaders := "Size" :: headers.flatMap (fun h =>
      if strContains (strToLower h) "size" then []
      else
        let ch := cleanHeader h
        if ch == "" then [] else [ch ++ " (cm)", ch ++ " (in)"])
    let rows := (t.rows.map (fun cells => wRowAux headers cells 0 [])).filter
      (fun r => !r.isEmpty)
    if rows.isEmpty then none
    else some ⟨outHeaders, rows⟩

/-- The headers of the chart produced by `extractDualUnitSizeChart`
(`[]` when extraction fails). -/
def extractedHeaders (t : WTable) : List String :=
  (extractDualUnitSizeChart t).elim [] SizeChart.headers

/-- The measurement base names recovered from a combined chart's headers in
`ExtractAllSizeCharts` (part_000 lines 497-516), deduplicated first-seen. -/
def measurementBases (headers : List String) : List String :=
  removeDuplicateURLs ((headers.filter (fun h => h ≠ "Size")).filterMap (fun h =>
    let b := goTrimOneSuffix (goTrimOneSuffix h " (cm)") " (in)"
    if b ≠ h then some b else none))

/-- One unit-specific chart built by `ExtractAllSizeCharts` (part_000 lines
518-560): headers `Size` plus each measurement with the unit suffix; every
input row is mapped (and kept) with whichever of those keys it carries. -/
def buildUnitChart (suffix : String) (ms : List String)
    (rows : List (List (String × String))) : SizeChart :=
  ⟨"Size" :: ms.map (fun m => m ++ suffix),
   rows.map (fun row =>
     let r0 := match assocLookup row "Size" with
       | some v => [("Size", v)]
       | none => []
     ms.foldl (fun acc m =>
       match assocLookup row (m ++ suffix) with
       | some v => acc ++ [(m ++ suffix, v)]
       | none => acc) r0)⟩

/-- The unit split of `ExtractAllSizeCharts` (part_000 lines 493-566):
an inches chart then a centimeters chart, each included when non-empty. -/
def westsideSplitCharts (c : SizeChart) : List SizeChart :=
  let ms := measurementBases c.headers
  let inChart := buildUnitChart " (in)" ms c.rows
  let cmChart := buildUnitChart " (cm)" ms c.rows
  (if inChart.rows.isEmpty then [] else [inChart]) ++
    (if cmChart.rows.isEmpty then [] else [cmChart])

/-- The pure tail of the Westside `ExtractAllSizeCharts` pipeline (part_000
lines 458-568): dual-unit extraction followed by the unit split. -/
def westsideExtractAllCharts (t : WTable) : List SizeChart :=
  match extractDualUnitSizeChart t with
  | none => []
  | some c => westsideSplitCharts c

/-! ## `unnamed/part_001` (SuqahAdapter): isHeaderRow -/

/-- The label words recognized by `isHeaderRow` (part_001 lines 361-364). -/
def headerLabelWords : List String :=
  ["BUST", "WAIST", "HIP", "HIPS", "SIZE", "CHEST"]

/-- The non-empty values of a row, as counted by `isHeaderRow`'s
`totalValues` (part_001 lines 354-358). -/
def rowNonEmptyVals (row : List (String × String)) : List String :=
  (row.map Prod.snd).filter (fun v => v ≠ "")

/-- `isHeaderRow`'s `headerCount` (part_001 lines 360-365): non-empty values
that, trimmed and upper-cased, equal a known label word. -/
def rowLabelCount (row : List (String × String)) : Nat :=
  ((rowNonEmptyVals row).filter
    (fun v => headerLabelWords.contains (strToUpper (goTrim v)))).length

/-- `isHeaderRow` (part_001 lines 349-375): a row is header-like when it has
a non-empty value and `headerCount >= totalValues/2` (Go integer division). -/
def isHeaderRow (row : List (String × String)) : Bool :=
  decide (0 < (rowNonEmptyVals row).length) &&
    decide ((rowNonEmptyVals row).length / 2 ≤ rowLabelCount row)

/-! ## `adapters/littleboxindia.go`: dual-unit cells and their encoded
attribute payloads.

The payload of a `data-unit-values` attribute is decoded by
`json.Unmarshal` into a Go `map[string]string`.  `parseUnitMap` models that
library call for this target type: it accepts exactly a JSON object whose
values are all strings (or the literal `null`, which Go decodes by leaving
the map empty), with JSON whitespace and string escapes, last duplicate key
winning; everything else is a decode error, modelled as `none`. -/

/-- The opening brace character. -/
def lbrace : Char := Char.ofNat 0x7b

/-- The closing brace character. -/
def rbrace : Char := Char.ofNat 0x7d

/-- JSON insignificant whitespace. -/
def jsonWsChar (c : Char) : Bool :=
  c == ' ' || c == '\t' || c == '\n' || c == '\r'

/-- Skip JSON insignificant whitespace. -/
def skipJsonWs (cs : List Char) : List Char :=
  cs.dropWhile jsonWsChar

/-- Value of a hexadecimal digit. -/
def hexDigitVal (c : Char) : Option Nat :=
  if '0' ≤ c ∧ c ≤ '9' then some (c.toNat - '0'.toNat)
  else if 'a' ≤ c ∧ c ≤ 'f' then some (c.toNat - 'a'.toNat + 10)
  else if 'A' ≤ c ∧ c ≤ 'F' then some (c.toNat - 'A'.toNat + 10)
  else none

/-- JSON string body scanner (after the opening quote), fuel-bounded:
handles the standard escapes, decodes `\uXXXX` (a lone surrogate becomes
U+FFFD, as in Go), and rejects raw control characters. -/
def parseJStringAux : Nat → List Char → Option (List Char × List Char)
  | 0, _ => none
  | _ + 1, [] => none
  | fuel + 1, c :: cs =>
    if c == '"' then some ([], cs)
    else if c == '\\' then
      match cs with
      | [] => none
      | e :: cs' =>
        let cont := fun (ch : Char) (rest : List Char) =>
          (parseJStringAux fuel rest).map (fun pr => (ch :: pr.1, pr.2))
        if e == '"' then cont '"' cs'
        else if e == '\\' then cont '\\' cs'
        else if e == '/' then cont '/' cs'
        else if e == 'b' then cont (Char.ofNat 8) cs'
        else if e == 'f' then cont (Char.ofNat 12) cs'
        else if e == 'n' then cont '\n' cs'
        else if e == 'r' then cont '\r' cs'
        else if e == 't' then cont '\t' cs'
        else if e == 'u' then
          match cs' with
          | h1 :: h2 :: h3 :: h4 :: cs'' =>
            match hexDigitVal h1, hexDigitVal h2, hexDigitVal h3, hexDigitVal h4 with
            | some a, some b, some c2, some d =>
              let n := ((a * 16 + b) * 16 + c2) * 16 + d
              let ch := if 0xD800 ≤ n ∧ n < 0xE000 then Char.ofNat 0xFFFD else Char.ofNat n
              cont ch cs''
            | _, _, _, _ => none
          | _ => none
        else none
    else if c.toNat < 0x20 then none
    else (parseJStringAux fuel cs).map (fun pr => (c :: pr.1, pr.2))

/-- Parse one JSON string token. -/
def parseJString (cs : List Char) : Option (String × List Char) :=
  match cs with
  | '"' :: rest => (parseJStringAux (rest.length + 1) rest).map
      (fun pr => (String.mk pr.1, pr.2))
  | _ => none

/-- Parse the entries of a JSON object whose values must be strings,
starting after the opening brace of a non-empty object; duplicate keys
overwrite as in a Go map. -/
def parseEntries : Nat → List Char → List (String × String) →
    Option (List (String × String) × List Char)
  | 0, _, _ => none
  | fuel + 1, cs, acc =>
    match parseJString (skipJsonWs cs) with
    | none => none
    | some (k, r1) =>
      match skipJsonWs r1 with
      | ':' :: r2 =>
        match parseJString (skipJsonWs r2) with
        | none => none
        | some (v, r3) =>
          match skipJsonWs r3 with
          | [] => none
          | c :: r4 =>
            if c == ',' then parseEntries fuel r4 (assocSet acc k v)
            else if c == rbrace then some (assocSet acc k v, r4)
            else none
      | _ => none

/-- Models `json.Unmarshal(data, &m)` for `m : map[string]string`:
`some` entries on success, `none` on any decode error. -/
def parseUnitMap (s : String) : Option (List (String × String)) :=
  match skipJsonWs s.data with
  | [] => none
  | c :: rest =>
    if c == lbrace then
      match skipJsonWs rest with
      | [] => none
      | c2 :: r2 =>
        if c2 == rbrace then if (skipJsonWs r2).isEmpty then some [] else none
        else
          match parseEntries (rest.length + 1) rest [] with
          | some (m, r3) => if (skipJsonWs r3).isEmpty then some m else none
          | none => none
    else
      match c :: rest with
      | 'n' :: 'u' :: 'l' :: 'l' :: r => if (skipJsonWs r).isEmpty then some [] else none
      | _ => none

/-- Models `strings.ReplaceAll(s, "&quot;", quote)` (littleboxindia.go
lines 224-225 and 421-422), scanning left to right. -/
def replaceQuotChars : List Char → List Char
  | '&' :: 'q' :: 'u' :: 'o' :: 't' :: ';' :: rest => '"' :: replaceQuotChars rest
  | c :: rest => c :: replaceQuotChars rest
  | [] => []

/-- `strings.ReplaceAll(s, "&quot;", quote)` on strings. -/
def replaceQuotEnt (s : String) : String :=
  String.mk (replaceQuotChars s.data)

/-- The per-cell dual-unit decoding of `ExtractAllSizeCharts`
(littleboxindia.go lines 417-448): `text` is the cell text and `duv` the
`data-unit-values` attribute (`""` when absent).  Result: the inch value
(key `"0"`) and the centimeter value (key `"1"`), each missing when the
payload decodes without that key; parse failure or a missing attribute
falls back to the trimmed cell text for both units. -/
def processCellDual (text duv : String) : Option String × Option String :=
  if duv ≠ "" then
    match parseUnitMap (replaceQuotEnt duv) with
    | some m => (assocLookup m "0", assocLookup m "1")
    | none => (some (goTrim text), some (goTrim text))
  else (some (goTrim text), some (goTrim text))

/-- The per-cell decoding of the single-chart `ExtractSizeChart`
(littleboxindia.go lines 221-245): the inch value under key `"0"` (empty
when the key is missing), with the same plain-text fallback. -/
def processCellSingle (text duv : String) : String :=
  if duv ≠ "" then
    match parseUnitMap (replaceQuotEnt duv) with
    | some m => (assocLookup m "0").getD ""
    | none => goTrim text
  else goTrim text

/-! ## URL normalization and discovery scoping (`adapters/base.go` lines
317-347, `unnamed/part_000` lines 113-140, `unnamed/part_001` lines
101-127).

`net/url.Parse` and `URL.Hostname()` are Go library calls, modelled here
for the URL shapes in play: `urlParseOk` accepts strings free of ASCII
control characters, and `urlHostname` reads the host of a
`scheme://[userinfo@]host[:port]/...` URL (no IPv6 brackets). -/

/-- Drop everything through the first `://`. -/
def dropThroughSchemeSep : List Char → Option (List Char)
  | ':' :: '/' :: '/' :: rest => some rest
  | _ :: rest => dropThroughSchemeSep rest
  | [] => none

/-- The segment after the last `@`, or the whole list. -/
def afterLastAt (l : List Char) : List Char :=
  (l.reverse.takeWhile (fun c => c != '@')).reverse

/-- Models `url.Parse(s)` followed by `.Hostname()`. -/
def urlHostname (s : String) : String :=
  match dropThroughSchemeSep s.data with
  | none => ""
  | some rest =>
    let authority := rest.takeWhile (fun c => c != '/' && c != '?' && c != '#')
    String.mk ((afterLastAt authority).takeWhile (fun c => c != ':'))

/-- Models `url.Parse(s)` succeeding. -/
def urlParseOk (s : String) : Bool :=
  s.data.all (fun c => 0x20 ≤ c.toNat)

/-- The relative-to-absolute href rules shared by all the discovery loops
(base.go lines 333-338, part_000 lines 125-131, part_001 lines 113-119). -/
def hrefAbsolutize (base href : String) : String :=
  if goHasPrefix href "/" then base ++ href
  else if !goHasPrefix href "http" then base ++ "/" ++ href
  else href

/-- Per-href handling of `BaseAdapter.ExtractProductURLsFromCollection`
(base.go lines 321-344): trim, reject empty, absolutize, and emit whenever
the URL parses — no domain test. -/
def baseCollectHref (base href : String) : Option String :=
  let h := goTrim href
  if h == "" then none
  else
    let abs := hrefAbsolutize base h
    if urlParseOk abs then some abs else none

/-- Per-href handling of the Suqah `extractProductURLsFromCollection`
(part_001 lines 102-125): same as the base adapter, with the Suqah origin
and no domain test. -/
def suqahCollectHref (href : String) : Option String :=
  let h := goTrim href
  if h == "" then none
  else
    let abs := hrefAbsolutize "https://www.suqah.com" h
    if urlParseOk abs then some abs else none

/-- Per-href handling of the Westside `extractProductURLsFromCollection`
(part_000 lines 114-140): absolutize against the Westside origin and emit
only when the parsed hostname contains `westside.com`. -/
def westsideCollectHref (href : String) : Option String :=
  let h := goTrim href
  if h == "" then none
  else
    let abs := hrefAbsolutize "https://www.westside.com" h
    if urlParseOk abs then
      if strContains (urlHostname abs) "westside.com" then some abs else none
    else none

/-! ## Proof-side definitions -/

/-- Characterization device for `removeDupAux`: what the loop appends after
the already-emitted slice, given the current seen set. -/
def dedupFrom : List String → List String → List String
  | [], _ => []
  | u :: rest, seen =>
    if u ∈ seen then dedupFrom rest seen else u :: dedupFrom rest (u :: seen)

/-- The canonical output header a raw header is mapped to by
`FilterSizeChart`'s `headerMap`, when the entry order is immaterial. -/
def canonOf (h : String) : Option String :=
  (headerMapList.find? (fun kc => strContains (strToLower h) kc.1)).map Prod.snd

/-- A chart on which `FilterSizeChart` cannot observe the Go map iteration
order: every header matches at most one `headerMap` entry, and no two
headers are mapped to the same output column. -/
def unambiguousChart (c : SizeChart) : Prop :=
  (∀ h ∈ c.headers, ∀ e1 ∈ headerMapList, ∀ e2 ∈ headerMapList,
    strContains (strToLower h) e1.1 = true → strContains (strToLower h) e2.1 = true →
      e1 = e2) ∧
  (∀ h1 ∈ c.headers, ∀ h2 ∈ c.headers,
    (canonOf h1).isSome = true → canonOf h1 = canonOf h2 → h1 = h2)

/-- A Westside table whose single data row carries a size label and an
empty measurement cell. -/
def westsideDemoTable : WTable :=
  ⟨["Size", "Waist"], [[⟨"", "", "S"⟩, ⟨"", "", ""⟩]]⟩

/-- The normalization example of spec section 8. -/
def specExampleChart : SizeChart :=
  ⟨["SIZE", "TO FIT BUST", "TO FIT WAIST"],
   [[("SIZE", "S"), ("TO FIT BUST", "34"), ("TO FIT WAIST", "28")]]⟩

/-- A chart whose single header matches two `headerMap` entries with
different canonical targets. -/
def ambiguousChart : SizeChart :=
  ⟨["hip size"], [[("hip size", "30")]]⟩

/-- A row with three non-empty values of which exactly one is a label word. -/
def labelDemoRow : List (String × String) :=
  [("a", "BUST"), ("b", "34"), ("c", "36")]

/-! ## Helper lemmas -/

theorem strContains_trans {s q p : String} (hq : strContains s q = true)
    (hpq : strContains q p = true) : strContains s p = true := by
  simp only [strContains, decide_eq_true_eq] at *
  exact hpq.trans hq

theorem find?_eq_some_of_unique {α : Type} {p : α → Bool} {l : List α} {x : α}
    (hx : x ∈ l) (hpx : p x = true) (hu : ∀ a ∈ l, p a = true → a = x) :
    l.find? p = some x := by
  induction l with
  | nil => cases hx
  | cons b t ih =>
    cases hb : p b with
    | true =>
      have hbx : b = x := hu b (List.mem_cons_self b t) hb
      subst hbx
      simp [List.find?, hb]
    | false =>
      have hxt : x ∈ t := by
        rcases List.mem_cons.mp hx with h | h
        · subst h; rw [hpx] at hb; cases hb
        · exact h
      simp only [List.find?, hb]
      exact ih hxt (fun a ha hpa => hu a (List.mem_cons_of_mem b ha) hpa)

theorem find?_congr_perm {α : Type} {p : α → Bool} {l base : List α}
    (hp : l.Perm base) (hu : ∀ a ∈ base, ∀ b ∈ base, p a = true → p b = true → a = b) :
    l.find? p = base.find? p := by
  cases hfind : base.find? p with
  | none =>
    rw [List.find?_eq_none] at hfind ⊢
    exact fun x hxl => hfind x (hp.subset hxl)
  | some x =>
    have hxmem : x ∈ base := List.mem_of_find?_eq_some hfind
    have hpx : p x = true := List.find?_some hfind
    exact find?_eq_some_of_unique (hp.mem_iff.mpr hxmem) hpx
      (fun a ha hpa => hu a (hp.subset ha) x hxmem hpa hpx)

theorem removeDupAux_eq (l : List String) : ∀ seen unique,
    removeDupAux l seen unique = unique ++ dedupFrom l seen := by
  induction l with
  | nil => intro seen unique; simp [removeDupAux, dedupFrom]
  | cons u rest ih =>
    intro seen unique
    by_cases hu : u ∈ seen
    · simp [removeDupAux, dedupFrom, hu, ih]
    · simp [removeDupAux, dedupFrom, hu, ih]

theorem mem_dedupFrom (l : List String) : ∀ seen u,
    u ∈ dedupFrom l seen ↔ u ∈ l ∧ u ∉ seen := by
  induction l with
  | nil => intro seen u; simp [dedupFrom]
  | cons v rest ih =>
    intro seen u
    by_cases hv : v ∈ seen
    · simp only [dedupFrom, if_pos hv, ih, List.mem_cons]
      constructor
      · exact fun h => ⟨Or.inr h.1, h.2⟩
      · rintro ⟨h | h, hns⟩
        · subst h; exact absurd hv hns
        · exact ⟨h, hns⟩
    · simp only [dedupFrom, if_neg hv, List.mem_cons, ih]
      constructor
      · rintro (rfl | ⟨hr, hns⟩)
        · exact ⟨Or.inl rfl, hv⟩
        · exact ⟨Or.inr hr, fun hs => hns (Or.inr hs)⟩
      · rintro ⟨rfl | hr, hns⟩
        · exact Or.inl rfl
        · by_cases huv : u = v
          · exact Or.inl huv
          · exact Or.inr ⟨hr, by simp [List.mem_cons, huv, hns]⟩

theorem nodup_dedupFrom (l : List String) : ∀ seen, (dedupFrom l seen).Nodup := by
  induction l with
  | nil => intro seen; simp [dedupFrom]
  | cons v rest ih =>
    intro seen
    by_cases hv : v ∈ seen
    · simpa [dedupFrom, hv] using ih seen
    · simp only [dedupFrom, if_neg hv, List.nodup_cons]
      exact ⟨fun hmem => ((mem_dedupFrom rest (v :: seen) v).mp hmem).2
        (List.mem_cons_self v seen), ih (v :: seen)⟩

theorem pairwise_dedupFrom (l : List String) : ∀ seen,
    List.Pairwise (fun a b => l.indexOf a < l.indexOf b) (dedupFrom l seen) := by
  induction l with
  | nil => intro seen; simp [dedupFrom]
  | cons v rest ih =>
    intro seen
    by_cases hv : v ∈ seen
    · rw [dedupFrom, if_pos hv]
      refine ((ih seen).imp_of_mem ?_)
      intro a b ha hb hab
      have hav : a ≠ v := by
        intro h; rw [h] at ha
        exact ((mem_dedupFrom rest seen v).mp ha).2 hv
      have hbv : b ≠ v := by
        intro h; rw [h] at hb
        exact ((mem_dedupFrom rest seen v).mp hb).2 hv
      rw [List.indexOf_cons_ne _ (fun h => hav h.symm),
        List.indexOf_cons_ne _ (fun h => hbv h.symm)]
      omega
    · rw [dedupFrom, if_neg hv]
      refine List.Pairwise.cons ?_ (((ih (v :: seen)).imp_of_mem ?_))
      · intro b hb
        have hbv : b ≠ v := by
          intro h; rw [h] at hb
          exact ((mem_dedupFrom rest (v :: seen) v).mp hb).2 (List.mem_cons_self v seen)
        rw [List.indexOf_cons_self, List.indexOf_cons_ne _ (fun h => hbv h.symm)]
        omega
      · intro a b ha hb hab
        have hav : a ≠ v := by
          intro h; rw [h] at ha
          exact ((mem_dedupFrom rest (v :: seen) v).mp ha).2 (List.mem_cons_self v seen)
        have hbv : b ≠ v := by
          intro h; rw [h] at hb
          exact ((mem_dedupFrom rest (v :: seen) v).mp hb).2 (List.mem_cons_self v seen)
        rw [List.indexOf_cons_ne _ (fun h => hav h.symm),
          List.indexOf_cons_ne _ (fun h => hbv h.symm)]
        omega

/-- Claim C9: `RemoveDuplicateURLs` returns each distinct URL of its input
exactly once (no duplicates, same membership) in first-seen order (the
output is strictly sorted by index of first occurrence in the input). -/
theorem c9_removeDuplicateURLs_spec (urls : List String) :
    (removeDuplicateURLs urls).Nodup ∧
    (∀ u, u ∈ removeDuplicateURLs urls ↔ u ∈ urls) ∧
    List.Pairwise (fun a b => urls.indexOf a < urls.indexOf b)
      (removeDuplicateURLs urls) := by
  have he : removeDuplicateURLs urls = dedupFrom urls [] := by
    simp [removeDuplicateURLs, removeDupAux_eq]
  rw [he]
  exact ⟨nodup_dedupFrom urls [], fun u => by simp [mem_dedupFrom],
    pairwise_dedupFrom urls []⟩

/-- Claim C6 fails as stated: this row has three non-empty values and only
one label word — not more than half — yet `isHeaderRow` classifies it as a
header row, because the source's test is `headerCount >= totalValues/2`
with integer division. -/
theorem c6_counterexample :
    isHeaderRow labelDemoRow = true ∧
    2 * rowLabelCount labelDemoRow ≤ (rowNonEmptyVals labelDemoRow).length := by
  decide

/-- Claim C6 as amended: a row is classified header-like exactly when it has
a non-empty value and the label-word count is at least half the non-empty
count rounded down — equivalently, the non-empty count is at most twice the
label count plus one. -/
theorem c6_isHeaderRow_iff (row : List (String × String)) :
    isHeaderRow row = true ↔
      0 < (rowNonEmptyVals row).length ∧
      (rowNonEmptyVals row).length ≤ 2 * rowLabelCount row + 1 := by
  simp only [isHeaderRow, Bool.and_eq_true, decide_eq_true_eq]
  omega

theorem or_contains_eq {s p q : String}
    (himp : strContains s q = true → strContains s p = true) :
    (strContains s p || strContains s q) = strContains s p := by
  cases hp : strContains s p
  · cases hq : strContains s q
    · simp
    · exact absurd (himp hq) (by simp [hp])
  · simp

theorem cleanHeader_cases (h : String) :
    cleanHeader h =
      ((westsideKeywordList.find?
        (fun kc => strContains (strToLower (goTrim h)) kc.1)).map Prod.snd).getD "" := by
  unfold cleanHeader westsideKeywordList
  have t1 : strContains (strToLower (goTrim h)) "to fit shoulder" = true →
      strContains (strToLower (goTrim h)) "shoulder" = true :=
    fun hc => strContains_trans hc (by decide)
  have t2 : strContains (strToLower (goTrim h)) "to fit chest" = true →
      strContains (strToLower (goTrim h)) "chest" = true :=
    fun hc => strContains_trans hc (by decide)
  have t3 : strContains (strToLower (goTrim h)) "to fit waist" = true →
      strContains (strToLower (goTrim h)) "waist" = true :=
    fun hc => strContains_trans hc (by decide)
  have t4 : strContains (strToLower (goTrim h)) "to fit hip" = true →
      strContains (strToLower (goTrim h)) "hip" = true :=
    fun hc => strContains_trans hc (by decide)
  have t5 : strContains (strToLower (goTrim h)) "to fit bust" = true →
      strContains (strToLower (goTrim h)) "bust" = true :=
    fun hc => strContains_trans hc (by decide)
  simp only [or_contains_eq t1, or_contains_eq t2, or_contains_eq t3,
    or_contains_eq t4, or_contains_eq t5]
  cases h1 : strContains (strToLower (goTrim h)) "shoulder" <;>
    cases h2 : strContains (strToLower (goTrim h)) "chest" <;>
    cases h3 : strContains (strToLower (goTrim h)) "waist" <;>
    cases h4 : strContains (strToLower (goTrim h)) "hip" <;>
    cases h5 : strContains (strToLower (goTrim h)) "bust" <;>
    simp [List.find?, h1, h2, h3, h4, h5]

theorem cleanHeader_mem_or_empty (h : String) :
    cleanHeader h = "" ∨ ∃ kc ∈ westsideKeywordList, cleanHeader h = kc.2 := by
  rw [cleanHeader_cases h]
  cases hf : westsideKeywordList.find?
      (fun kc => strContains (strToLower (goTrim h)) kc.1) with
  | none => exact Or.inl rfl
  | some kc => exact Or.inr ⟨kc, List.mem_of_find?_eq_some hf, rfl⟩

theorem extractedHeaders_shape (t : WTable) (hdr : String)
    (hmem : hdr ∈ extractedHeaders t) :
    hdr = "Size" ∨ ∃ kc ∈ westsideKeywordList,
      hdr = kc.2 ++ " (cm)" ∨ hdr = kc.2 ++ " (in)" := by
  simp only [extractedHeaders, extractDualUnitSizeChart] at hmem
  split at hmem
  · cases hmem
  · split at hmem
    · cases hmem
    · simp only [Option.elim_some, List.mem_cons, List.mem_flatMap] at hmem
      rcases hmem with rfl | ⟨h0, _, hh⟩
      · exact Or.inl rfl
      · split at hh
        · cases hh
        · split at hh
          · cases hh
          · rcases cleanHeader_mem_or_empty h0 with he | ⟨kc, hkc, hck⟩
            · rename_i hcne
              rw [he] at hcne
              simp at hcne
            · simp only [List.mem_cons, List.not_mem_nil, or_false] at hh
              rcases hh with rfl | rfl
              · exact Or.inr ⟨kc, hkc, Or.inl (by rw [hck])⟩
              · exact Or.inr ⟨kc, hkc, Or.inr (by rw [hck])⟩

/-- Claim C1 fails as stated: the spec's priority order puts Bust before
Waist and Hip and includes Size, but `cleanHeader` tests waist and hip
before bust and does not recognize size at all, so a header containing both
keywords canonicalizes to Waist where the spec's order predicts Bust, and a
pure size header is dropped where the spec predicts Size. -/
theorem c1_counterexample :
    cleanHeader "bust waist" = "Waist" ∧ cleanHeaderSpecModel "bust waist" = "Bust" ∧
    cleanHeader "dress size" = "" ∧ cleanHeaderSpecModel "dress size" = "Size" := by
  decide

/-- Claim C1 as amended: `cleanHeader` lower-cases the trimmed header and
returns the canonical measurement of the first matching keyword in the fixed
priority order Shoulder, Chest, Waist, Hip, Bust (Size is not part of the
canonicalizer's vocabulary — size columns are recognized separately by its
callers), and a header matching no keyword contributes no column to the
extracted chart: every extracted header is `Size` or a recognized
measurement with a unit suffix. -/
theorem c1_cleanHeader_priority :
    (∀ h, cleanHeader h =
      ((westsideKeywordList.find?
        (fun kc => strContains (strToLower (goTrim h)) kc.1)).map Prod.snd).getD "") ∧
    (∀ t hdr, hdr ∈ extractedHeaders t → hdr = "Size" ∨
      ∃ kc ∈ westsideKeywordList, hdr = kc.2 ++ " (cm)" ∨ hdr = kc.2 ++ " (in)") :=
  ⟨cleanHeader_cases, extractedHeaders_shape⟩

/-- Witness for C1 at concrete inputs. -/
theorem c1_witness :
    cleanHeader "TO FIT BUST" = "Bust" ∧
    ("Waist (cm)" = "Size" ∨ ∃ kc ∈ westsideKeywordList,
      "Waist (cm)" = kc.2 ++ " (cm)" ∨ "Waist (cm)" = kc.2 ++ " (in)") :=
  ⟨(c1_cleanHeader_priority.1 "TO FIT BUST").trans (by decide),
   c1_cleanHeader_priority.2 westsideDemoTable "Waist (cm)" (by decide)⟩

/-- Claim C2 fails as stated: the Westside dual-unit splitting stage keeps a
row whose only non-empty value is its Size label — the final inch and cm
charts both contain the row with Size `"S"` and an empty measurement. -/
theorem c2_counterexample :
    westsideExtractAllCharts westsideDemoTable =
      [⟨["Size", "Waist (in)"], [[("Size", "S"), ("Waist (in)", "")]]⟩,
       ⟨["Size", "Waist (cm)"], [[("Size", "S"), ("Waist (cm)", "")]]⟩] ∧
    ¬ (∀ c ∈ westsideExtractAllCharts westsideDemoTable, ∀ r ∈ c.rows,
        ∃ p ∈ r, p.1 ≠ "Size" ∧ p.2 ≠ "") := by
  decide

/-- Claim C2 as amended: the retention rule holds for the `FilterSizeChart`
stage — every row of its output has a non-empty Bust, Waist or Hip value,
so a row whose target measurements are all empty is excluded there even
when its Size value is non-empty — but the Westside dual-unit splitter
instead keeps any row that produced at least one cell, including rows whose
measurement values are all empty. -/
theorem c2_filter_rows_nonempty (kmOrd : List (String × String))
    (ioOrd : List (String × String) → List (String × String))
    (c : Option SizeChart) (out : SizeChart)
    (heq : filterSizeChartWith kmOrd ioOrd c = some out) :
    ∀ r ∈ out.rows, assocGetD r "Bust (in)" ≠ "" ∨ assocGetD r "Waist (in)" ≠ "" ∨
      assocGetD r "Hip (in)" ≠ "" := by
  intro r hr
  cases c with
  | none => cases heq
  | some ch =>
    simp only [filterSizeChartWith] at heq
    split at heq
    · cases heq
    · cases heq
      have hk := (List.mem_filter.mp hr).2
      simp only [rowKept, Bool.or_eq_true, Bool.not_eq_true',
        beq_eq_false_iff_ne] at hk
      tauto

/-- Witness for C2 at a concrete chart. -/
theorem c2_witness :
    assocGetD [("Size", ""), ("Bust (in)", ""), ("Waist (in)", "28"), ("Hip (in)", "")]
        "Bust (in)" ≠ "" ∨
    assocGetD [("Size", ""), ("Bust (in)", ""), ("Waist (in)", "28"), ("Hip (in)", "")]
        "Waist (in)" ≠ "" ∨
    assocGetD [("Size", ""), ("Bust (in)", ""), ("Waist (in)", "28"), ("Hip (in)", "")]
        "Hip (in)" ≠ "" :=
  c2_filter_rows_nonempty headerMapList id
    (some ⟨["TO FIT WAIST"], [[("TO FIT WAIST", "28")]]⟩)
    ⟨outputHeaders, [[("Size", ""), ("Bust (in)", ""), ("Waist (in)", "28"), ("Hip (in)", "")]]⟩
    (by decide) _ (by decide)

theorem buildFilteredRow_keys (io : List (String × String))
    (row : List (String × String)) :
    (buildFilteredRow io row).map Prod.fst = outputHeaders := by
  simp only [buildFilteredRow, List.map_map]
  have hc : ∀ x ∈ outputHeaders, (Prod.fst ∘ fun outH =>
      match io.find? (fun e => e.2 == outH && (assocLookup row e.1).isSome) with
      | some e => (outH, assocGetD row e.1)
      | none => (outH, "")) x = id x := by
    intro x _
    simp only [Function.comp_apply, id_eq]
    split <;> rfl
  rw [List.map_congr_left hc, List.map_id]

/-- Claim C10: whenever `FilterSizeChart` returns a chart, its headers are
exactly the four canonical ones, every retained row's key list is exactly
that header list (absent measurements carrying `""`), and the retained rows
are a sublist — in input order — of the per-row transforms of the input
rows.  This holds for every Go map iteration order. -/
theorem c10_filter_output_shape (kmOrd : List (String × String))
    (ioOrd : List (String × String) → List (String × String))
    (c : SizeChart) (out : SizeChart)
    (heq : filterSizeChartWith kmOrd ioOrd (some c) = some out) :
    out.headers = outputHeaders ∧
    (∀ r ∈ out.rows, r.map Prod.fst = outputHeaders) ∧
    out.rows.Sublist
      (c.rows.map (buildFilteredRow (ioOrd (inputToOutputOf kmOrd c.headers)))) := by
  simp only [filterSizeChartWith] at heq
  split at heq
  · cases heq
  · cases heq
    refine ⟨rfl, ?_, List.filter_sublist _⟩
    intro r hr
    rcases List.mem_map.mp (List.mem_of_mem_filter hr) with ⟨row, _, rfl⟩
    exact buildFilteredRow_keys _ row

/-- Witness for C10 at the spec's normalization example. -/
theorem c10_witness :
    (SizeChart.mk outputHeaders
        [[("Size", "S"), ("Bust (in)", "34"), ("Waist (in)", "28"), ("Hip (in)", "")]]).headers =
      outputHeaders ∧
    (∀ r ∈ (SizeChart.mk outputHeaders
        [[("Size", "S"), ("Bust (in)", "34"), ("Waist (in)", "28"), ("Hip (in)", "")]]).rows,
      r.map Prod.fst = outputHeaders) ∧
    (SizeChart.mk outputHeaders
        [[("Size", "S"), ("Bust (in)", "34"), ("Waist (in)", "28"), ("Hip (in)", "")]]).rows.Sublist
      (specExampleChart.rows.map
        (buildFilteredRow (id (inputToOutputOf headerMapList specExampleChart.headers)))) :=
  c10_filter_output_shape headerMapList id specExampleChart
    ⟨outputHeaders, [[("Size", "S"), ("Bust (in)", "34"), ("Waist (in)", "28"), ("Hip (in)", "")]]⟩
    (by decide)

theorem prefix_of_append_cons {α : Type} {kw l1 l2 : List α} {c : α}
    (hc : c ∉ kw) (h : kw <+: l1 ++ c :: l2) : kw <+: l1 := by
  induction kw generalizing l1 with
  | nil => exact List.nil_prefix
  | cons k ks ih =>
    rcases h with ⟨t, ht⟩
    cases l1 with
    | nil =>
      injection ht with h1 h2
      exact absurd (h1 ▸ List.mem_cons_self k ks) hc
    | cons a l1' =>
      injection ht with h1 h2
      subst h1
      have hks : ks <+: l1' :=
        ih (fun hm => hc (List.mem_cons_of_mem _ hm)) ⟨t, h2⟩
      rcases hks with ⟨t', ht'⟩
      exact ⟨t', by rw [List.cons_append, ht']⟩

theorem infix_append_cons_split {α : Type} {kw l1 l2 : List α} {c : α}
    (hc : c ∉ kw) (h : kw <:+: l1 ++ c :: l2) : kw <:+: l1 ∨ kw <:+: l2 := by
  induction l1 with
  | nil =>
    rcases h with ⟨s, t, hst⟩
    cases s with
    | nil =>
      cases kw with
      | nil => exact Or.inl (List.nil_infix)
      | cons k ks =>
        injection hst with h1 h2
        exact absurd (h1 ▸ List.mem_cons_self k ks) hc
    | cons a s' =>
      injection hst with h1 h2
      exact Or.inr ⟨s', t, h2⟩
  | cons a l1' ih =>
    rcases h with ⟨s, t, hst⟩
    cases s with
    | nil =>
      exact Or.inl (prefix_of_append_cons hc ⟨t, hst⟩).isInfix
    | cons b s' =>
      injection hst with h1 h2
      rcases ih ⟨s', t, h2⟩ with h | h
      · exact Or.inl (h.trans ((List.suffix_cons a l1').isInfix))
      · exact Or.inr h

theorem infix_join_iff {kw : List Char} (hkw : ' ' ∉ kw) :
    ∀ parts : List (List Char), parts ≠ [] →
      (kw <:+: joinSpaceChars parts ↔ ∃ p ∈ parts, kw <:+: p) := by
  intro parts
  induction parts with
  | nil => intro h; exact absurd rfl h
  | cons p rest ih =>
    intro _
    cases rest with
    | nil =>
      simp [joinSpaceChars]
    | cons q rest' =>
      constructor
      · intro h
        rcases infix_append_cons_split hkw h with h | h
        · exact ⟨p, List.mem_cons_self p _, h⟩
        · rcases (ih (by simp)).mp h with ⟨r, hr, hkr⟩
          exact ⟨r, List.mem_cons_of_mem p hr, hkr⟩
      · rintro ⟨r, hr, hkr⟩
        rcases List.mem_cons.mp hr with rfl | hr
        · exact hkr.trans ⟨[], ' ' :: joinSpaceChars (q :: rest'), rfl⟩
        · have hj : kw <:+: joinSpaceChars (q :: rest') := (ih (by simp)).mpr ⟨r, hr, hkr⟩
          exact hj.trans ⟨p ++ [' '], [], by simp [joinSpaceChars]⟩

theorem singleton_infix_iff {α : Type} {c : α} {l : List α} : [c] <:+: l ↔ c ∈ l := by
  constructor
  · rintro ⟨s, t, rfl⟩
    simp
  · intro h
    rcases List.mem_iff_append.mp h with ⟨s, t, rfl⟩
    exact ⟨s, t, by simp⟩

theorem map_joinSpaceChars (f : Char → Char) (hf : f ' ' = ' ') :
    ∀ l : List (List Char),
      (joinSpaceChars l).map f = joinSpaceChars (l.map (List.map f)) := by
  intro l
  induction l with
  | nil => rfl
  | cons s rest ih =>
    cases rest with
    | nil => rfl
    | cons t rest' =>
      simp only [joinSpaceChars, List.map_append, List.map_cons, hf, List.map]
      rw [ih]
      simp [List.map]

theorem headerScan_iff (hs : List String) (hne : hs ≠ []) (kw : String)
    (hkw : ' ' ∉ kw.data) :
    (kw.data <:+: (joinSpaceChars (hs.map String.data)).map Char.toLower) ↔
      ∃ h ∈ hs, strContains (strToLower h) kw = true := by
  rw [map_joinSpaceChars Char.toLower (by decide) (hs.map String.data), List.map_map,
    infix_join_iff hkw _ (by simp [hne])]
  constructor
  · rintro ⟨p, hp, hinf⟩
    rcases List.mem_map.mp hp with ⟨h, hh, rfl⟩
    exact ⟨h, hh, by simpa [strContains, strToLower] using hinf⟩
  · rintro ⟨h, hh, hc⟩
    refine ⟨h.data.map Char.toLower, List.mem_map.mpr ⟨h, hh, rfl⟩, ?_⟩
    simpa [strContains, strToLower] using hc

theorem cellScan_iff (rows : List (List (String × String))) :
    (rows.any (fun row => row.any (fun p =>
      let vu := p.2.data.map Char.toUpper
      decide (['S'] <:+: vu) || decide (['M'] <:+: vu) ||
        decide (['L'] <:+: vu) || decide (['X'] <:+: vu)))) = true ↔
      ∃ r ∈ rows, ∃ p ∈ r, ∃ c0 ∈ (['S', 'M', 'L', 'X'] : List Char),
        c0 ∈ (strToUpper p.2).data := by
  simp only [List.any_eq_true, Bool.or_eq_true, decide_eq_true_eq,
    singleton_infix_iff, strToUpper, List.mem_cons, List.not_mem_nil, or_false]
  constructor
  · rintro ⟨r, hr, p, hp, hd⟩
    refine ⟨r, hr, p, hp, ?_⟩
    rcases hd with ((h | h) | h) | h
    · exact ⟨'S', Or.inl rfl, h⟩
    · exact ⟨'M', Or.inr (Or.inl rfl), h⟩
    · exact ⟨'L', Or.inr (Or.inr (Or.inl rfl)), h⟩
    · exact ⟨'X', Or.inr (Or.inr (Or.inr rfl)), h⟩
  · rintro ⟨r, hr, p, hp, c0, hc0, hmem⟩
    refine ⟨r, hr, p, hp, ?_⟩
    rcases hc0 with rfl | rfl | rfl | rfl
    · exact Or.inl (Or.inl (Or.inl hmem))
    · exact Or.inl (Or.inl (Or.inr hmem))
    · exact Or.inl (Or.inr hmem)
    · exact Or.inr hmem

/-- Claim C4: `IsValidSizeChart` returns true exactly for a non-nil chart
with non-empty headers and rows in which some header, case-insensitively,
contains a size keyword, or some cell value, upper-cased, contains one of
the letters S, M, L, X; nil or structurally empty charts are always
invalid. -/
theorem c4_isValidSizeChart_iff (c : Option SizeChart) :
    isValidSizeChart c = true ↔
      ∃ ch, c = some ch ∧ ch.headers ≠ [] ∧ ch.rows ≠ [] ∧
        ((∃ h ∈ ch.headers, ∃ kw ∈ sizeKeywords, strContains (strToLower h) kw = true) ∨
          ∃ r ∈ ch.rows, ∃ p ∈ r, ∃ c0 ∈ (['S', 'M', 'L', 'X'] : List Char),
            c0 ∈ (strToUpper p.2).data) := by
  cases c with
  | none => simp [isValidSizeChart]
  | some ch =>
    simp only [isValidSizeChart, Option.some.injEq]
    cases hE : (ch.headers.isEmpty || ch.rows.isEmpty) with
    | true =>
      simp only [hE, if_true, Bool.false_eq_true, false_iff]
      rintro ⟨ch2, rfl, hh1, hh2, _⟩
      rw [Bool.or_eq_true] at hE
      rcases hE with h | h
      · exact hh1 (List.isEmpty_iff.mp h)
      · exact hh2 (List.isEmpty_iff.mp h)
    | false =>
      have hh1 : ch.headers ≠ [] := by
        intro h; rw [h] at hE; simp at hE
      have hh2 : ch.rows ≠ [] := by
        intro h; rw [h] at hE; simp at hE
      have hHdr : (sizeKeywords.any (fun kw => decide (kw.data <:+:
          (joinSpaceChars (ch.headers.map String.data)).map Char.toLower))) = true ↔
          ∃ h ∈ ch.headers, ∃ kw ∈ sizeKeywords,
            strContains (strToLower h) kw = true := by
        rw [List.any_eq_true]
        constructor
        · rintro ⟨kw, hkw, hdec⟩
          have hsp : ' ' ∉ kw.data := by
            simp only [sizeKeywords, List.mem_cons, List.not_mem_nil, or_false] at hkw
            rcases hkw with rfl | rfl | rfl | rfl | rfl | rfl | rfl <;> decide
          rcases (headerScan_iff ch.headers hh1 kw hsp).mp (by simpa using hdec) with
            ⟨h, hh, hc⟩
          exact ⟨h, hh, kw, hkw, hc⟩
        · rintro ⟨h, hh, kw, hkw, hc⟩
          refine ⟨kw, hkw, ?_⟩
          have hsp : ' ' ∉ kw.data := by
            simp only [sizeKeywords, List.mem_cons, List.not_mem_nil, or_false] at hkw
            rcases hkw with rfl | rfl | rfl | rfl | rfl | rfl | rfl <;> decide
          simpa using (headerScan_iff ch.headers hh1 kw hsp).mpr ⟨h, hh, hc⟩
      simp only [hE, Bool.false_eq_true, if_false, exists_eq_left', hh1, hh2, ne_eq,
        not_false_eq_true, true_and]
      cases hA : (sizeKeywords.any (fun kw => decide (kw.data <:+:
          (joinSpaceChars (ch.headers.map String.data)).map Char.toLower))) with
      | true =>
        simp only [hA, if_true, true_iff]
        exact Or.inl (hHdr.mp hA)
      | false =>
        simp only [hA, Bool.false_eq_true, if_false]
        rw [cellScan_iff]
        constructor
        · exact Or.inr
        · rintro (h | h)
          · exact absurd (hHdr.mpr h) (by simp [hA])
          · exact h

/-- Claim C5: for a measurement cell carrying a `data-unit-values`
attribute, if the payload — after replacing `&quot;` by a double quote —
decodes as a JSON string-to-string map, the value under key `"0"` is
emitted as the inch value and the value under key `"1"` as the centimeter
value (so the payload mapping 0 to 34 and 1 to 86 yields inch 34 and cm
86); on decode failure the trimmed cell text is used for both units, so the
cell still contributes values and the row is not discarded. -/
theorem c5_dualUnit_attribute :
    (∀ text duv m, duv ≠ "" →
      parseUnitMap (replaceQuotEnt duv) = some m →
        processCellDual text duv = (assocLookup m "0", assocLookup m "1") ∧
        processCellSingle text duv = (assocLookup m "0").getD "") ∧
    (∀ text duv, duv ≠ "" →
      parseUnitMap (replaceQuotEnt duv) = none →
        processCellDual text duv = (some (goTrim text), some (goTrim text)) ∧
        processCellSingle text duv = goTrim text) ∧
    processCellDual "x" "\x7b&quot;0&quot;:&quot;34&quot;,&quot;1&quot;:&quot;86&quot;\x7d" =
      (some "34", some "86") ∧
    processCellDual " fallback " "not json" = (some "fallback", some "fallback") := by
  refine ⟨?_, ?_, by decide, by decide⟩
  · intro text duv m hne hp
    constructor
    · simp [processCellDual, hne, hp]
    · simp [processCellSingle, hne, hp]
  · intro text duv hne hp
    constructor
    · simp [processCellDual, hne, hp]
    · simp [processCellSingle, hne, hp]

/-- Witness for C5 at the concrete entity-escaped payload and at a
malformed payload. -/
theorem c5_witness :
    processCellDual "x" "\x7b&quot;0&quot;:&quot;34&quot;,&quot;1&quot;:&quot;86&quot;\x7d" =
      (assocLookup [("0", "34"), ("1", "86")] "0",
       assocLookup [("0", "34"), ("1", "86")] "1") ∧
    processCellDual "f" "oops" = (some (goTrim "f"), some (goTrim "f")) :=
  ⟨(c5_dualUnit_attribute.1 "x"
      "\x7b&quot;0&quot;:&quot;34&quot;,&quot;1&quot;:&quot;86&quot;\x7d"
      [("0", "34"), ("1", "86")] (by decide) (by decide)).1,
   (c5_dualUnit_attribute.2.1 "f" "oops" (by decide) (by decide)).1⟩

/-- Claim C8 fails as stated: the shared base-adapter product-link
extractor and the Suqah collection extractor perform no domain check — an
href pointing at a foreign host is emitted as long as it parses — so not
every discovered URL is scoped to the storefront domain. -/
theorem c8_counterexample :
    baseCollectHref "https://www.suqah.com" "https://evil.com/products/x" =
      some "https://evil.com/products/x" ∧
    suqahCollectHref "https://evil.com/products/x" =
      some "https://evil.com/products/x" ∧
    strContains (urlHostname "https://evil.com/products/x") "suqah.com" = false := by
  decide

/-- Claim C8 as amended: domain scoping holds in the Westside discovery
loops — every URL emitted by the Westside per-href handler has a hostname
containing `westside.com` — but the shared base-adapter and the Suqah
handlers emit any trimmed, parseable href regardless of its host. -/
theorem c8_westside_domain_scoped (href u : String)
    (h : westsideCollectHref href = some u) :
    strContains (urlHostname u) "westside.com" = true := by
  simp only [westsideCollectHref] at h
  split at h
  · cases h
  · split at h
    · split at h
      · cases h
        rename_i hc
        exact hc
      · cases h
    · cases h

/-- Witness for C8 at a concrete relative href. -/
theorem c8_witness :
    strContains (urlHostname "https://www.westside.com/products/p1") "westside.com" = true :=
  c8_westside_domain_scoped "/products/p1" "https://www.westside.com/products/p1" (by decide)

theorem mem_assocSet {l : List (String × String)} {k v : String}
    {e : String × String} (h : e ∈ assocSet l k v) : e = (k, v) ∨ e ∈ l := by
  induction l with
  | nil =>
    simp only [assocSet, List.mem_singleton] at h
    exact Or.inl h
  | cons kv rest ih =>
    simp only [assocSet] at h
    split at h
    · rcases List.mem_cons.mp h with rfl | h
      · exact Or.inl rfl
      · exact Or.inr (List.mem_cons_of_mem _ h)
    · rcases List.mem_cons.mp h with rfl | h
      · exact Or.inr (List.mem_cons_self _ _)
      · rcases ih h with h | h
        · exact Or.inl h
        · exact Or.inr (List.mem_cons_of_mem _ h)

theorem inputToOutputOf_entry {base : List (String × String)} :
    ∀ (hs : List String) (acc : List (String × String)) (e : String × String),
      e ∈ hs.foldl (fun acc h =>
        match base.find? (fun kc => strContains (strToLower h) kc.1) with
        | some kc => assocSet acc h kc.2
        | none => acc) acc →
      e ∈ acc ∨ (e.1 ∈ hs ∧
        (base.find? (fun kc => strContains (strToLower e.1) kc.1)).map Prod.snd =
          some e.2) := by
  intro hs
  induction hs with
  | nil => intro acc e h; exact Or.inl h
  | cons h0 hs' ih =>
    intro acc e hmem
    rw [List.foldl_cons] at hmem
    rcases ih _ e hmem with hacc | ⟨h1, h2⟩
    · cases hfind : base.find? (fun kc => strContains (strToLower h0) kc.1) with
      | none =>
        rw [hfind] at hacc
        exact Or.inl hacc
      | some kc =>
        rw [hfind] at hacc
        rcases mem_assocSet hacc with rfl | hacc
        · exact Or.inr ⟨List.mem_cons_self _ _, by rw [hfind]; rfl⟩
        · exact Or.inl hacc
    · exact Or.inr ⟨List.mem_cons_of_mem _ h1, h2⟩

theorem inputToOutputOf_perm {kmOrd : List (String × String)}
    (hk : kmOrd.Perm headerMapList) (hs : List String)
    (hu : ∀ h ∈ hs, ∀ e1 ∈ headerMapList, ∀ e2 ∈ headerMapList,
      strContains (strToLower h) e1.1 = true →
      strContains (strToLower h) e2.1 = true → e1 = e2) :
    inputToOutputOf kmOrd hs = inputToOutputOf headerMapList hs := by
  have key : ∀ (hs' : List String) (acc : List (String × String)),
      (∀ h ∈ hs', ∀ e1 ∈ headerMapList, ∀ e2 ∈ headerMapList,
        strContains (strToLower h) e1.1 = true →
        strContains (strToLower h) e2.1 = true → e1 = e2) →
      hs'.foldl (fun acc h =>
        match kmOrd.find? (fun kc => strContains (strToLower h) kc.1) with
        | some kc => assocSet acc h kc.2
        | none => acc) acc =
      hs'.foldl (fun acc h =>
        match headerMapList.find? (fun kc => strContains (strToLower h) kc.1) with
        | some kc => assocSet acc h kc.2
        | none => acc) acc := by
    intro hs'
    induction hs' with
    | nil => intro acc _; rfl
    | cons h0 hsr ih =>
      intro acc hu'
      have hfind : kmOrd.find? (fun kc => strContains (strToLower h0) kc.1) =
          headerMapList.find? (fun kc => strContains (strToLower h0) kc.1) :=
        find?_congr_perm hk
          (fun a ha b hb hpa hpb => hu' h0 (List.mem_cons_self _ _) a ha b hb hpa hpb)
      rw [List.foldl_cons, List.foldl_cons, hfind]
      exact ih _ (fun x hx => hu' x (List.mem_cons_of_mem _ hx))
  exact key hs [] hu

theorem buildFilteredRow_congr {l io row : List (String × String)} (hl : l.Perm io)
    (hup : ∀ a ∈ io, ∀ b ∈ io, a.2 = b.2 → a = b) :
    buildFilteredRow l row = buildFilteredRow io row := by
  unfold buildFilteredRow
  apply List.map_congr_left
  intro outH _
  have hfind : l.find? (fun e => e.2 == outH && (assocLookup row e.1).isSome) =
      io.find? (fun e => e.2 == outH && (assocLookup row e.1).isSome) := by
    apply find?_congr_perm hl
    intro a ha b hb hpa hpb
    have ha2 : a.2 = outH := by
      have h' := hpa
      simp only [Bool.and_eq_true, beq_iff_eq] at h'
      exact h'.1
    have hb2 : b.2 = outH := by
      have h' := hpb
      simp only [Bool.and_eq_true, beq_iff_eq] at h'
      exact h'.1
    exact hup a ha b hb (ha2.trans hb2.symm)
  rw [hfind]

theorem filterSizeChartWith_eq_base (kmOrd : List (String × String))
    (ioOrd : List (String × String) → List (String × String))
    (c : Option SizeChart) (hk : kmOrd.Perm headerMapList)
    (hio : ∀ l, (ioOrd l).Perm l)
    (hc : ∀ ch, c = some ch → unambiguousChart ch) :
    filterSizeChartWith kmOrd ioOrd c = filterSizeChartWith headerMapList id c := by
  cases c with
  | none => rfl
  | some ch =>
    obtain ⟨cond1, cond2⟩ := hc ch rfl
    have hioeq : inputToOutputOf kmOrd ch.headers =
        inputToOutputOf headerMapList ch.headers :=
      inputToOutputOf_perm hk ch.headers cond1
    have hup : ∀ a ∈ inputToOutputOf headerMapList ch.headers,
        ∀ b ∈ inputToOutputOf headerMapList ch.headers, a.2 = b.2 → a = b := by
      intro a ha b hb hab
      rcases inputToOutputOf_entry ch.headers [] a ha with h | ⟨ha1, ha2⟩
      · cases h
      rcases inputToOutputOf_entry ch.headers [] b hb with h | ⟨hb1, hb2⟩
      · cases h
      have hca : canonOf a.1 = some a.2 := ha2
      have hcb : canonOf b.1 = some b.2 := hb2
      have h1 : a.1 = b.1 := by
        refine cond2 a.1 ha1 b.1 hb1 ?_ ?_
        · rw [hca]; rfl
        · rw [hca, hcb, hab]
      exact Prod.ext h1 hab
    have hrows : ch.rows.map (fun row =>
        buildFilteredRow (ioOrd (inputToOutputOf headerMapList ch.headers)) row) =
        ch.rows.map (fun row =>
          buildFilteredRow (id (inputToOutputOf headerMapList ch.headers)) row) :=
      List.map_congr_left (fun row _ => buildFilteredRow_congr (hio _) hup)
    simp only [filterSizeChartWith, hioeq, hrows]

/-- Claim C3 fails as stated: on the spec's example input the normalization
stage returns the fixed four canonical headers — including `Hip (in)`,
which the claim's header list omits. -/
theorem c3_counterexample :
    (filterSizeChartWith headerMapList id (some specExampleChart)).map
      SizeChart.headers = some ["Size", "Bust (in)", "Waist (in)", "Hip (in)"] ∧
    (["Size", "Bust (in)", "Waist (in)", "Hip (in)"] : List String) ≠
      ["Size", "Bust (in)", "Waist (in)"] := by
  decide

/-- Claim C3 as amended: for every Go map iteration order, the chart with
headers SIZE, TO FIT BUST, TO FIT WAIST and the single row S/34/28
normalizes to the chart with headers Size, Bust (in), Waist (in), Hip (in)
and exactly one row mapping Size to S, Bust (in) to 34, Waist (in) to 28
and Hip (in) to the empty string. -/
theorem c3_normalization (kmOrd : List (String × String))
    (ioOrd : List (String × String) → List (String × String))
    (h1 : kmOrd.Perm headerMapList) (h2 : ∀ l, (ioOrd l).Perm l) :
    filterSizeChartWith kmOrd ioOrd (some specExampleChart) =
      some ⟨["Size", "Bust (in)", "Waist (in)", "Hip (in)"],
        [[("Size", "S"), ("Bust (in)", "34"), ("Waist (in)", "28"), ("Hip (in)", "")]]⟩ := by
  rw [filterSizeChartWith_eq_base kmOrd ioOrd _ h1 h2
    (fun ch hch => by cases hch; constructor <;> decide)]
  decide

/-- Witness for C3 at the source iteration order. -/
theorem c3_witness :
    filterSizeChartWith headerMapList id (some specExampleChart) =
      some ⟨["Size", "Bust (in)", "Waist (in)", "Hip (in)"],
        [[("Size", "S"), ("Bust (in)", "34"), ("Waist (in)", "28"), ("Hip (in)", "")]]⟩ :=
  c3_normalization headerMapList id (List.Perm.refl _) (fun l => List.Perm.refl l)

/-- Claim C7 fails as stated: `FilterSizeChart` ranges over the Go
`headerMap`, whose iteration order is unspecified, and for a header
matching two keywords with different canonical targets two legitimate
iteration orders produce different outputs — the run is not a function of
the input alone. -/
theorem c7_counterexample :
    headerMapList.reverse.Perm headerMapList ∧
    filterSizeChartWith headerMapList id (some ambiguousChart) ≠
      filterSizeChartWith headerMapList.reverse id (some ambiguousChart) :=
  ⟨List.reverse_perm headerMapList, by decide⟩

/-- Claim C7 as amended: `FilterSizeChart` is a function of its input plus
the Go map iteration orders; on charts where every header matches at most
one `headerMap` target and no two headers share a canonical column, the
iteration orders cannot be observed, so any two runs on equal inputs agree. -/
theorem c7_deterministic_unambiguous (kmOrd1 kmOrd2 : List (String × String))
    (ioOrd1 ioOrd2 : List (String × String) → List (String × String))
    (c : Option SizeChart)
    (h1 : kmOrd1.Perm headerMapList) (h2 : kmOrd2.Perm headerMapList)
    (h3 : ∀ l, (ioOrd1 l).Perm l) (h4 : ∀ l, (ioOrd2 l).Perm l)
    (hc : ∀ ch, c = some ch → unambiguousChart ch) :
    filterSizeChartWith kmOrd1 ioOrd1 c = filterSizeChartWith kmOrd2 ioOrd2 c :=
  (filterSizeChartWith_eq_base kmOrd1 ioOrd1 c h1 h3 hc).trans
    (filterSizeChartWith_eq_base kmOrd2 ioOrd2 c h2 h4 hc).symm

/-- Witness for C7: two concrete distinct iteration orders on the spec's
example chart. -/
theorem c7_witness :
    filterSizeChartWith headerMapList id (some specExampleChart) =
      filterSizeChartWith headerMapList.reverse (fun l => l.reverse)
        (some specExampleChart) :=
  c7_deterministic_unambiguous headerMapList headerMapList.reverse id
    (fun l => l.reverse) (some specExampleChart) (List.Perm.refl _)
    (List.reverse_perm _) (fun l => List.Perm.refl l) (fun l => List.reverse_perm l)
    (fun ch hch => by cases hch; constructor <;> decide)
